import Mathlib

/-!
Verification of the inventory-ledger core of the radiology portal
(`core/backend.py` and the exam-page reversal/cancellation handlers in
`pages/exames.py`).

The Python code is shallowly embedded: JSON floats become `ℚ`, Python
`dict`s keyed by `str(material_id)` become ordered association lists
(`Est`), optional JSON fields become `Option`, raised `ValueError`s become
`Except`/`Option` error values (`StockError` distinguishes the raise
sites), and the persisted-on-success / untouched-on-raise file behaviour
is modelled by returning the pair of persisted states.  Python's stable
`list.sort(key=...)` is modelled by `List.insertionSort` (a stable sort,
hence extensionally identical).  In-place mutation of row dicts obtained
from a sorted snapshot is modelled by carrying the row's original index
(`List.enum`) and writing back with `List.set`.
-/

attribute [local semireducible] Rat.add Rat.mul Rat.sub Rat.inv

/-- Python `round(x, 6)`: round half to even at the 6th decimal. -/
def round_half_even (x : ℚ) : ℤ :=
  let f := x.floor
  let r := x - (f : ℚ)
  if r < 1/2 then f
  else if 1/2 < r then f + 1
  else if f % 2 = 0 then f else f + 1

/-- `round(x, 6)` of the source. -/
def round6 (x : ℚ) : ℚ := (round_half_even (x * 1000000) : ℚ) / 1000000

/-- The epsilon `1e-9` used by every debit guard in the source. -/
def eps : ℚ := 1/1000000000

/-- Python `s.lower()` (over the character data). -/
def pyLower (s : String) : String := ⟨s.data.map Char.toLower⟩

/-- Python `s.strip()`: drop leading and trailing whitespace. -/
def pyStrip (s : String) : String :=
  ⟨((s.data.dropWhile Char.isWhitespace).reverse.dropWhile Char.isWhitespace).reverse⟩

/-- Python `c in s` for a single-character needle. -/
def pyContains (s : String) (c : Char) : Bool := s.data.contains c

/-- Code-point lexicographic `≤` on character data (Python string `<=`). -/
def listStrLe : List Char → List Char → Bool
  | [], _ => true
  | _ :: _, [] => false
  | a :: s, b :: t =>
    if a.toNat < b.toNat then true
    else if b.toNat < a.toNat then false
    else listStrLe s t

/-- Code-point lexicographic `<` on character data (Python string `<`). -/
def listStrLt : List Char → List Char → Bool
  | [], [] => false
  | [], _ :: _ => true
  | _ :: _, [] => false
  | a :: s, b :: t =>
    if a.toNat < b.toNat then true
    else if b.toNat < a.toNat then false
    else listStrLt s t

/-- Python `s <= t` on strings (code-point lexicographic). -/
def pyStrLe (s t : String) : Bool := listStrLe s.data t.data

/-- Python `s < t` on strings (code-point lexicographic). -/
def pyStrLt (s t : String) : Bool := listStrLt s.data t.data

/-- Python `(x or "").strip() or None`: normalise an optional text field. -/
def normStrField (o : Option String) : Option String :=
  let s := pyStrip (o.getD "")
  if s = "" then none else some s

/-- Python `x or None` on an optional string (empty string is falsy). -/
def normO (o : Option String) : Option String :=
  match o with
  | some "" => none
  | x => x

/-- Python `o or d` on an optional string with a default (empty is falsy). -/
def strOr (o : Option String) (d : String) : String :=
  match o with
  | none => d
  | some s => if s = "" then d else s

/-- One row of `estoque.json`: a lot/batch of a material. -/
structure Lot where
  id : Nat
  lote : Option String
  validade : Option String
  saldo : ℚ
deriving DecidableEq, Repr

/-- `estoque.json`: material id (the `str(mid)` dict key) ↦ list of lots. -/
abbrev Est := List (Nat × List Lot)

/-- Whether the dict has the key `str(mid)`. -/
def estHasKey : Est → Nat → Bool
  | [], _ => false
  | (k, _) :: t, mid => k = mid || estHasKey t mid

/-- `est.get(str(mid), []) or []`. -/
def rowsOf : Est → Nat → List Lot
  | [], _ => []
  | (k, v) :: t, mid => if k = mid then v else rowsOf t mid

/-- Replace the value stored under a key (no-op when the key is absent). -/
def estSet : Est → Nat → List Lot → Est
  | [], _, _ => []
  | (k, v) :: t, mid, rows =>
    if k = mid then (k, rows) :: t else (k, v) :: estSet t mid rows

/-- `est.setdefault(str(mid), [])`: append the key at the end if absent. -/
def estSetdefault (est : Est) (mid : Nat) : Est :=
  if estHasKey est mid then est else est ++ [(mid, [])]

/-- `_all_batch_max_id`: maximum lot id across the entire ledger. -/
def _all_batch_max_id (est : Est) : Nat :=
  est.foldl (fun mx p => p.2.foldl (fun m r => max m r.id) mx) 0

/-- `_find_batch`, returning the matching row together with its index.
Matches the first row whose `(lote or None, validade or None)` pair equals
the given pair. -/
def _find_batch (rows : List Lot) (lote validade : Option String) : Option (Nat × Lot) :=
  (rows.enum.filter
    (fun p => normO p.2.lote = normO lote ∧ normO p.2.validade = normO validade)).head?

/-- `_ensure_batch`: find the `(lote, validade)` lot or create it (balance 0,
id = ledger-wide max + 1).  Returns the ledger and the row's index. -/
def _ensure_batch (est : Est) (mid : Nat) (lote validade : Option String) :
    Est × Nat :=
  let est1 := estSetdefault est mid
  let rows := rowsOf est1 mid
  match _find_batch rows lote validade with
  | some (i, _) => (est1, i)
  | none =>
    let nid := _all_batch_max_id est1 + 1
    (estSet est1 mid (rows ++ [{ id := nid, lote := normO lote,
                                 validade := normO validade, saldo := 0 }]),
     rows.length)

/-- `_sum_batches`: sum of all lot balances of a material. -/
def _sum_batches (est : Est) (mid : Nat) : ℚ :=
  ((rowsOf est mid).map Lot.saldo).sum

/-- The FIFO sort key: `x.get("validade") or "9999-99-99"`. -/
def fifoKey (r : Lot) : String := strOr r.validade "9999-99-99"

/-- The FIFO comparison used by the stable sort. -/
def fifoLe (a b : Lot) : Prop := pyStrLe (fifoKey a) (fifoKey b) = true

instance : DecidableRel fifoLe := fun a b =>
  inferInstanceAs (Decidable (_ = true))

/-- The FIFO comparison lifted to index-carrying rows. -/
def fifoLeIdx (a b : Nat × Lot) : Prop := fifoLe a.2 b.2

instance : DecidableRel fifoLeIdx := fun a b =>
  inferInstanceAs (Decidable (fifoLe a.2 b.2))

/-- Rows with positive balance, paired with their original index, stably
sorted by expiry (missing expiries get the maximal sentinel date). -/
def enumFifo (rows : List Lot) : List (Nat × Lot) :=
  List.insertionSort fifoLeIdx (rows.enum.filter (fun p => 0 < p.2.saldo))

/-- `_fifo_batches` (and the identical `consume_stock_by_batches._fifo`):
positive-balance lots of a material, stably sorted by expiry with the
`"9999-99-99"` sentinel for missing expiries. -/
def _fifo_batches (est : Est) (mid : Nat) : List Lot :=
  (enumFifo (rowsOf est mid)).map Prod.snd

/-- The distinguishable `ValueError` raise sites of the ledger code. -/
inductive StockError
  | invalidTipo
  | invalidQty
  | lotNotFoundExit
  | insufficientLotExit
  | insufficientFifoExit
  | lotNotFoundAdj
  | insufficientLotAdj
  | insufficientFifoAdj
  | lotNotFoundConsume
  | insufficientLotConsume
  | insufficientFifoConsume
  | typeErrorNoMaterialId
deriving DecidableEq, Repr

deriving instance DecidableEq for Except

/-- `consume_stock_by_batches._dec`: guarded debit of one lot,
rounding the stored balance to 6 decimals. -/
def dec (row : Lot) (q : ℚ) : Except StockError Lot :=
  let cur := row.saldo
  if cur + eps < q then .error .insufficientLotConsume
  else .ok { row with saldo := round6 (cur - q) }

/-- A usage item `{material_id, quantidade, lote_id, ...}` of an exam. -/
structure Item where
  material_id : Option Nat
  quantidade : Option ℚ
  lote_id : Option Nat
  valor_unitario : Option ℚ := none
  subtotal : Option ℚ := none
deriving DecidableEq, Repr

/-- `idx = {int(r["id"]): r ...}` then `idx[lote_id]`: last row with the
given id wins, returned with its index. -/
def findByIdLast (rows : List Lot) (lid : Nat) : Option (Nat × Lot) :=
  (rows.enum.filter (fun p => p.2.id = lid)).getLast?

/-- The FIFO loop of `consume_stock_by_batches`, debiting through `_dec`.
Rows are updated in place via their original indices. -/
def drainDec : List Lot → List (Nat × Lot) → ℚ → Except StockError (List Lot × ℚ)
  | rows, [], resto => .ok (rows, resto)
  | rows, (i, row) :: rest, resto =>
    if resto ≤ 0 then .ok (rows, resto)
    else if row.saldo ≤ 0 then drainDec rows rest resto
    else
      let cons := min row.saldo resto
      match dec row cons with
      | .error e => .error e
      | .ok row' => drainDec (rows.set i row') rest (resto - cons)

/-- Whether `consume_stock_by_batches` actually processes an item:
`material_id` present and quantity (defaulted to 0) strictly positive. -/
def isValidItem (it : Item) : Bool :=
  it.material_id.isSome && decide (0 < it.quantidade.getD 0)

/-- The per-item body of `consume_stock_by_batches`: skip invalid items,
debit a specific lot by id, or drain FIFO by expiry. -/
def consumeItem (est : Est) (it : Item) : Except StockError Est :=
  match it.material_id with
  | none => .ok est
  | some mid =>
    let qtd := it.quantidade.getD 0
    if qtd ≤ 0 then .ok est
    else
      match it.lote_id with
      | some lid =>
        let est1 := estSetdefault est mid
        let rows := rowsOf est1 mid
        match findByIdLast rows lid with
        | none => .error .lotNotFoundConsume
        | some (i, row) =>
          match dec row qtd with
          | .error e => .error e
          | .ok row' => .ok (estSet est1 mid (rows.set i row'))
      | none =>
        let rows := rowsOf est mid
        match drainDec rows (enumFifo rows) qtd with
        | .error e => .error e
        | .ok (rows', resto) =>
          if eps < resto then .error .insufficientFifoConsume
          else .ok (estSet est mid rows')

/-- `consume_stock_by_batches`: read the ledger, process all items in
memory, and (on success) return the ledger to be persisted once. -/
def consume_stock_by_batches (est : Est) (items : List Item) :
    Except StockError Est :=
  if items.isEmpty then .ok est
  else items.foldlM consumeItem est

/-- The ledger file after a call: written only when no item raised. -/
def persistedAfterConsume (file : Est) (items : List Item) : Est :=
  match consume_stock_by_batches file items with
  | .ok e => e
  | .error _ => file

/-- The raw record handed to `add_stock_movement`. -/
structure MovInput where
  material_id : Nat
  tipo : String
  quantidade : Option ℚ
  lote : Option String := none
  validade : Option String := none
  valor_unitario : Option ℚ := none
  obs : Option String := none
deriving DecidableEq, Repr

/-- A persisted row of `stock_movements.json` (timestamp omitted). -/
structure Mov where
  id : Nat
  material_id : Nat
  tipo : String
  quantidade : ℚ
  lote : Option String
  validade : Option String
  valor_unitario : Option ℚ
  obs : Option String
deriving DecidableEq, Repr

/-- `_nx_id`: next movement id (max existing id + 1). -/
def _nx_id (rows : List Mov) : Nat :=
  rows.foldl (fun mx r => max mx r.id) 0 + 1

/-- The normalised movement dict built at the top of `add_stock_movement`. -/
def mkMov (rows : List Mov) (rec : MovInput) : Mov :=
  { id := _nx_id rows
    material_id := rec.material_id
    tipo := pyStrip (pyLower rec.tipo)
    quantidade := rec.quantidade.getD 0
    lote := normStrField rec.lote
    validade := normStrField rec.validade
    valor_unitario := rec.valor_unitario
    obs := normStrField rec.obs }

/-- The adjustment-direction heuristic of the `ajuste` branch:
start from `False`; set positive when a unit cost is present or the note
has `+` without `-`; then force negative when the note has `-` without
`+`. -/
def ajuste_positivo (vu : Option ℚ) (obs : String) : Bool :=
  let p := vu.isSome || (pyContains obs '+' && !pyContains obs '-')
  if pyContains obs '-' && !pyContains obs '+' then false else p

/-- `b["saldo"] = float(b.get("saldo") or 0.0) + qtd` after `_ensure_batch`:
the credit applied by entries and positive adjustments (no rounding). -/
def ensureCredit (est : Est) (mid : Nat) (lote validade : Option String)
    (qtd : ℚ) : Est :=
  let p := _ensure_batch est mid lote validade
  let rows := rowsOf p.1 mid
  match rows.get? p.2 with
  | some b => estSet p.1 mid (rows.set p.2 { b with saldo := b.saldo + qtd })
  | none => p.1

/-- The in-place FIFO exit loop of `add_stock_movement` (`saida` and
negative `ajuste` without a lot): debit each positive lot in expiry order,
rounding to 6 decimals, and return the residual. -/
def drainRound : List Lot → List (Nat × Lot) → ℚ → List Lot × ℚ
  | rows, [], resto => (rows, resto)
  | rows, (i, row) :: rest, resto =>
    if resto ≤ 0 then (rows, resto)
    else if row.saldo ≤ 0 then drainRound rows rest resto
    else
      let take := min row.saldo resto
      drainRound (rows.set i { row with saldo := round6 (row.saldo - take) })
        rest (resto - take)

/-- The exit-like ledger application (`saida`, and negative `ajuste`):
debit a specific `(lote, validade)` pair, or FIFO across the material. -/
def saidaApply (est : Est) (mid : Nat) (qtd : ℚ) (lote validade : Option String)
    (eNF eIL eIF : StockError) : Except StockError Est :=
  if lote.isSome || validade.isSome then
    match _find_batch (rowsOf est mid) lote validade with
    | none => .error eNF
    | some (i, b) =>
      if b.saldo + eps < qtd then .error eIL
      else .ok (estSet est mid
        ((rowsOf est mid).set i { b with saldo := round6 (b.saldo - qtd) }))
  else
    if eps < (drainRound (rowsOf est mid) (enumFifo (rowsOf est mid)) qtd).2 then
      .error eIF
    else
      .ok (estSet est mid (drainRound (rowsOf est mid) (enumFifo (rowsOf est mid)) qtd).1)

/-- The `estoque.json` application step of `add_stock_movement`. -/
def applyMovEst (est : Est) (mov : Mov) : Except StockError Est :=
  if mov.tipo = "entrada" then
    .ok (ensureCredit est mov.material_id mov.lote mov.validade mov.quantidade)
  else if mov.tipo = "saida" then
    saidaApply est mov.material_id mov.quantidade mov.lote mov.validade
      .lotNotFoundExit .insufficientLotExit .insufficientFifoExit
  else
    if ajuste_positivo mov.valor_unitario (pyStrip (mov.obs.getD "")) then
      .ok (ensureCredit est mov.material_id mov.lote mov.validade mov.quantidade)
    else
      saidaApply est mov.material_id mov.quantidade mov.lote mov.validade
        .lotNotFoundAdj .insufficientLotAdj .insufficientFifoAdj

/-- `add_stock_movement`: validate, append the movement record to
`stock_movements.json`, then apply it to `estoque.json`.  The result is
the pair of persisted files plus the raised error, if any: a raise in the
ledger-application step happens after the movement file was written. -/
def add_stock_movement (rows : List Mov) (est : Est) (rec : MovInput) :
    (List Mov × Est) × Option StockError :=
  if ¬ ((mkMov rows rec).tipo = "entrada" ∨ (mkMov rows rec).tipo = "saida" ∨
        (mkMov rows rec).tipo = "ajuste") then
    ((rows, est), some .invalidTipo)
  else if (mkMov rows rec).quantidade ≤ 0 then ((rows, est), some .invalidQty)
  else
    match applyMovEst est (mkMov rows rec) with
    | .error e => ((rows ++ [mkMov rows rec], est), some e)
    | .ok est' => ((rows ++ [mkMov rows rec], est'), none)

/-- A row of `list_material_batches`: positive-balance lots with `lote`
and `validade` normalised to `"-"` when absent. -/
structure BatchView where
  id : Nat
  material_id : Nat
  lote : String
  validade : String
  saldo : ℚ
deriving DecidableEq, Repr

/-- The sort relation of `list_material_batches`
(`bb.get("validade") or "9999-99-99"`). -/
def bvLe (a b : BatchView) : Prop :=
  pyStrLe (strOr (some a.validade) "9999-99-99")
    (strOr (some b.validade) "9999-99-99") = true

instance : DecidableRel bvLe := fun a b =>
  inferInstanceAs (Decidable (_ = true))

/-- `list_material_batches`: active (positive-balance) lots of a material,
normalised for the UI and sorted by expiry. -/
def list_material_batches (est : Est) (mid : Nat) : List BatchView :=
  List.insertionSort bvLe
    (((rowsOf est mid).filter (fun b => 0 < b.saldo)).map
      (fun b => { id := b.id, material_id := mid, lote := strOr b.lote "-",
                  validade := strOr b.validade "-", saldo := b.saldo }))

/-- A material catalog entry (`materials.json`). -/
structure Material where
  id : Nat
  nome : String
  tipo : String := "Material"
  unidade : String := ""
  valor_unitario : Option ℚ := none
  estoque_inicial : Option ℚ := none
  estoque_minimo : Option ℚ := none
deriving DecidableEq, Repr

/-- `material_price_map().get(mid, 0.0)` (last record with an id wins). -/
def priceOf (mats : List Material) (mid : Nat) : ℚ :=
  match (mats.reverse.find? (fun m => m.id = mid)) with
  | some m => m.valor_unitario.getD 0
  | none => 0

/-- The per-item enrichment of `estimate_items_cost`. -/
def enrichItem (mats : List Material) (it : Item) : Option (Item × ℚ) :=
  match it.material_id with
  | none => none
  | some mid =>
    let qtd := it.quantidade.getD 0
    if qtd ≤ 0 then none
    else
      let vu := priceOf mats mid
      let sub := round6 (vu * qtd)
      some ({ material_id := some mid, quantidade := some qtd,
              lote_id := it.lote_id, valor_unitario := some vu,
              subtotal := some sub }, sub)

/-- `estimate_items_cost`: skip invalid items, price the rest, return the
enriched items and the rounded total. -/
def estimate_items_cost (mats : List Material) (items : List Item) :
    List Item × ℚ :=
  let en := items.filterMap (enrichItem mats)
  (en.map Prod.fst, round6 ((en.map Prod.snd).sum))

/-- An exam record (`exams.json`), restricted to ledger-relevant fields. -/
structure Exam where
  id : Option Nat
  exam_id : String := ""
  materiais_usados : List Item := []
  custo_estimado_total : Option ℚ := none
  cancelado : Bool := false
deriving DecidableEq, Repr

/-- Python truthiness of `exam.get("id")`. -/
def examTruthyId (e : Exam) : Bool :=
  match e.id with
  | some i => i ≠ 0
  | none => false

/-- `_next_id` over the exam collection. -/
def nextExamId (exams : List Exam) : Nat :=
  exams.foldl (fun mx e => max mx (e.id.getD 0)) 0 + 1

/-- Replace the first exam whose id equals the given exam's id. -/
def replaceFirstExam : List Exam → Exam → Option (List Exam)
  | [], _ => none
  | e :: t, x =>
    if e.id = x.id then some (x :: t)
    else (replaceFirstExam t x).map (fun t' => e :: t')

/-- `add_or_update_exam`: with a truthy id matching a stored exam, persist
the record as-is (no ledger access); otherwise enrich the items, consume
stock by lots/FIFO, and append with a fresh id.  Returns the persisted
`(exams, estoque)` pair and the new id or the raised error. -/
def add_or_update_exam (mats : List Material) (exams : List Exam) (est : Est)
    (exam : Exam) : (List Exam × Est) × Except StockError Nat :=
  match
    (if examTruthyId exam then replaceFirstExam exams exam else none) with
  | some exams' => ((exams', est), .ok (exam.id.getD 0))
  | none =>
    let p := estimate_items_cost mats exam.materiais_usados
    match consume_stock_by_batches est p.1 with
    | .error e => ((exams, est), .error e)
    | .ok est' =>
      let nid := nextExamId exams
      let ex' := { exam with
                   materiais_usados := p.1
                   custo_estimado_total := some p.2
                   id := some nid }
      ((exams ++ [ex'], est'), .ok nid)

/-- `aggregate_exam_material_usage` queried at one material id (falsy ids
are skipped by the aggregator). -/
def usageOf (exams : List Exam) (mid : Nat) : ℚ :=
  if mid = 0 then 0
  else (((exams.flatMap (fun e => e.materiais_usados)).filter
    (fun it => it.material_id = some mid)).map
      (fun it => it.quantidade.getD 0)).sum

/-- `aggregate_manual_movements` queried at one material id and one kind
(`"entrada"`, `"saida"` or `"ajuste"`); falsy ids are skipped. -/
def movKindSum (movs : List Mov) (mid : Nat) (k : String) : ℚ :=
  if mid = 0 then 0
  else ((movs.filter
    (fun m => m.material_id = mid ∧ pyLower m.tipo = k)).map
      Mov.quantidade).sum

/-- `str(mid) in est and len(est[str(mid)] or []) > 0`. -/
def hasLots (est : Est) (mid : Nat) : Bool :=
  estHasKey est mid && !(rowsOf est mid).isEmpty

/-- One row of the managerial snapshot. -/
structure SnapRow where
  id : Nat
  nome : String
  tipo : String
  unidade : String
  valor_unitario : ℚ
  estoque_inicial : ℚ
  estoque_minimo : ℚ
  consumo_exames : ℚ
  entradas : ℚ
  saidas : ℚ
  ajustes : ℚ
  estoque_atual : ℚ
  abaixo_minimo : Bool
deriving DecidableEq, Repr

/-- The snapshot row built for one material by `compute_stock_snapshot`. -/
def snapRow (exams : List Exam) (movs : List Mov) (est : Est)
    (m : Material) : SnapRow :=
  let ini := m.estoque_inicial.getD 0
  let minimo := m.estoque_minimo.getD 0
  let ent := movKindSum movs m.id "entrada"
  let sai := movKindSum movs m.id "saida"
  let aj := movKindSum movs m.id "ajuste"
  let cons := usageOf exams m.id
  let atual :=
    if hasLots est m.id then _sum_batches est m.id
    else ini + ent - sai + aj - cons
  { id := m.id
    nome := m.nome
    tipo := m.tipo
    unidade := m.unidade
    valor_unitario := m.valor_unitario.getD 0
    estoque_inicial := ini
    estoque_minimo := minimo
    consumo_exames := cons
    entradas := ent
    saidas := sai
    ajustes := aj
    estoque_atual := atual
    abaixo_minimo := if 0 < minimo then decide (atual < minimo) else false }

/-- The snapshot sort relation: material name, case-insensitive. -/
def snapLe (a b : SnapRow) : Prop :=
  pyStrLe (pyLower a.nome) (pyLower b.nome) = true

instance : DecidableRel snapLe := fun _ _ =>
  inferInstanceAs (Decidable (_ = true))

/-- `compute_stock_snapshot`: one row per material, ledger balance when
lots exist, legacy formula otherwise, sorted by name. -/
def compute_stock_snapshot (mats : List Material) (exams : List Exam)
    (movs : List Mov) (est : Est) : List SnapRow :=
  List.insertionSort snapLe (mats.map (snapRow exams movs est))

/-- Outcome of the cancel-exam callback. -/
inductive CancelOutcome
  | notFound
  | alreadyCancelled
  | errored (e : StockError)
  | ok
deriving DecidableEq, Repr

/-- The reversal loop of `_confirm_cancel_exam`: one `entrada` movement
per used item (lot code/expiry looked up among active batches when the
item is lot-keyed).  A raise aborts the loop with the state persisted so
far. -/
def revertItems (examCode : String) :
    List Item → List Mov → Est → (List Mov × Est) × Option StockError
  | [], movs, est => ((movs, est), none)
  | it :: rest, movs, est =>
    match it.material_id with
    | none => ((movs, est), some .typeErrorNoMaterialId)
    | some mid =>
      let qty := it.quantidade.getD 0
      let lv : Option String × Option String :=
        match it.lote_id with
        | some lid =>
          match (list_material_batches est mid).find? (fun b => b.id = lid) with
          | some b => (some b.lote, some b.validade)
          | none => (none, none)
        | none => (none, none)
      match add_stock_movement movs est
        { material_id := mid, tipo := "entrada", quantidade := some qty,
          lote := lv.1, validade := lv.2,
          obs := some ("Cancelamento exame " ++ examCode) } with
      | (s, some e) => (s, some e)
      | (s, none) => revertItems examCode rest s.1 s.2

/-- `_confirm_cancel_exam`: reject a second cancellation, otherwise credit
every used quantity back, clear the usage list, and set `cancelado`. -/
def _confirm_cancel_exam (mats : List Material) (exams : List Exam)
    (movs : List Mov) (est : Est) (exid : Nat) :
    (List Exam × List Mov × Est) × CancelOutcome :=
  match exams.find? (fun x => x.id = some exid) with
  | none => ((exams, movs, est), .notFound)
  | some ex =>
    if ex.cancelado then ((exams, movs, est), .alreadyCancelled)
    else
      match revertItems ex.exam_id ex.materiais_usados movs est with
      | ((movs', est'), some e) => ((exams, movs', est'), .errored e)
      | ((movs', est'), none) =>
        let newExam := { ex with materiais_usados := [], cancelado := true }
        match add_or_update_exam mats exams est' newExam with
        | ((exams2, est2), .ok _) => ((exams2, movs', est2), .ok)
        | ((exams2, est2), .error e) => ((exams2, movs', est2), .errored e)

/-- The second sort applied by `_apply_materials` to the batches
(`b.get("validade") or ""`). -/
def bvLeEmpty (a b : BatchView) : Prop :=
  pyStrLe (strOr (some a.validade) "") (strOr (some b.validade) "") = true

instance : DecidableRel bvLeEmpty := fun _ _ =>
  inferInstanceAs (Decidable (_ = true))

/-- The per-batch FIFO exit loop of `_apply_materials` for an unlotted
positive delta: one `saida` movement per positive batch, stopping early
when nothing is needed, aborting when a movement raises. -/
def fifoExitLoop (examCode : String) (mid : Nat) :
    List BatchView → List Mov → Est → ℚ →
    ((List Mov × Est) × ℚ) × Option StockError
  | [], movs, est, need => (((movs, est), need), none)
  | b :: rest, movs, est, need =>
    if need ≤ 0 then (((movs, est), need), none)
    else
      let take := min need b.saldo
      if 0 < take then
        match add_stock_movement movs est
          { material_id := mid, tipo := "saida", quantidade := some take,
            lote := some b.lote, validade := some b.validade,
            obs := some ("Ajuste materiais exame " ++ examCode ++ " (FIFO)") } with
        | (s, some e) => ((s, need), some e)
        | (s, none) => fifoExitLoop examCode mid rest s.1 s.2 (need - take)
      else fifoExitLoop examCode mid rest movs est need

/-- The body of the delta loop of `_apply_materials` for one
`(material, lot-or-null)` key: tiny deltas are skipped; a positive delta
becomes a synthetic exit (per-lot, or per-batch FIFO followed by a
residual unlotted exit when more than `1e-9` is still needed); a negative
delta becomes a synthetic entry of its absolute value. -/
def applyDeltaKey (examCode : String) (movs : List Mov) (est : Est)
    (mid : Nat) (lid : Option Nat) (diff : ℚ) :
    (List Mov × Est) × Option StockError :=
  if |diff| ≤ 1/1000000000000 then ((movs, est), none)
  else
    match lid with
    | some l =>
      let bLV :=
        match (list_material_batches est mid).find? (fun b => b.id = l) with
        | some b => (some b.lote, some b.validade)
        | none => ((none : Option String), (none : Option String))
      if 0 < diff then
        add_stock_movement movs est
          { material_id := mid, tipo := "saida", quantidade := some diff,
            lote := bLV.1, validade := bLV.2,
            obs := some ("Ajuste materiais exame " ++ examCode) }
      else
        add_stock_movement movs est
          { material_id := mid, tipo := "entrada", quantidade := some |diff|,
            lote := bLV.1, validade := bLV.2,
            obs := some ("Estorno materiais exame " ++ examCode) }
    | none =>
      if 0 < diff then
        let batches := List.insertionSort bvLeEmpty (list_material_batches est mid)
        match fifoExitLoop examCode mid batches movs est diff with
        | ((s, _), some e) => (s, some e)
        | ((s, need), none) =>
          if eps < need then
            add_stock_movement s.1 s.2
              { material_id := mid, tipo := "saida", quantidade := some need,
                obs := some ("Ajuste materiais exame " ++ examCode ++ " (residual)") }
          else (s, none)
      else
        add_stock_movement movs est
          { material_id := mid, tipo := "entrada", quantidade := some |diff|,
            obs := some ("Estorno materiais exame " ++ examCode) }

/-- `validadeBound r`: every present, non-empty expiry is strictly below
the `"9999-99-99"` sentinel (true of every ISO `YYYY-MM-DD` date). -/
def validadeBound (r : Lot) : Bool :=
  match r.validade with
  | none => true
  | some v => v == "" || pyStrLt v "9999-99-99"

/-- Total quantity used for one material in a usage list. -/
def usedQty (items : List Item) (mid : Nat) : ℚ :=
  ((items.filter (fun it => it.material_id = some mid)).map
    (fun it => it.quantidade.getD 0)).sum

theorem listStrLe_trans : ∀ (s t u : List Char),
    listStrLe s t = true → listStrLe t u = true → listStrLe s u = true := by
  intro s
  induction s with
  | nil => intro t u h1 h2; simp [listStrLe]
  | cons a s ih =>
    intro t u h1 h2
    cases t with
    | nil => simp [listStrLe] at h1
    | cons b t =>
      cases u with
      | nil => simp [listStrLe] at h2
      | cons c u =>
        by_cases hab : a.toNat < b.toNat
        · by_cases hbc : b.toNat < c.toNat
          · have hac : a.toNat < c.toNat := by omega
            simp [listStrLe, hac]
          · by_cases hcb : c.toNat < b.toNat
            · simp [listStrLe, hbc, hcb] at h2
            · have hac : a.toNat < c.toNat := by omega
              simp [listStrLe, hac]
        · by_cases hba : b.toNat < a.toNat
          · simp [listStrLe, hab, hba] at h1
          · by_cases hbc : b.toNat < c.toNat
            · have hac : a.toNat < c.toNat := by omega
              simp [listStrLe, hac]
            · by_cases hcb : c.toNat < b.toNat
              · simp [listStrLe, hbc, hcb] at h2
              · have hac : ¬ a.toNat < c.toNat := by omega
                have hca : ¬ c.toNat < a.toNat := by omega
                simp only [listStrLe, hab, hba, if_false, ite_false] at h1
                simp only [listStrLe, hbc, hcb, if_false, ite_false] at h2
                simp only [listStrLe, hac, hca, if_false, ite_false]
                exact ih t u h1 h2

theorem listStrLe_total : ∀ (s t : List Char),
    listStrLe s t = true ∨ listStrLe t s = true := by
  intro s
  induction s with
  | nil => intro t; left; simp [listStrLe]
  | cons a s ih =>
    intro t
    cases t with
    | nil => right; simp [listStrLe]
    | cons b t =>
      by_cases hab : a.toNat < b.toNat
      · left; simp [listStrLe, hab]
      · by_cases hba : b.toNat < a.toNat
        · right; simp [listStrLe, hba]
        · rcases ih t with h | h
          · left; simp [listStrLe, hab, hba, h]
          · right; simp [listStrLe, hab, hba, h]

theorem listStrLt_le_false : ∀ (s t : List Char),
    listStrLt s t = true → listStrLe t s = true → False := by
  intro s
  induction s with
  | nil =>
    intro t h1 h2
    cases t with
    | nil => simp [listStrLt] at h1
    | cons b t => simp [listStrLe] at h2
  | cons a s ih =>
    intro t h1 h2
    cases t with
    | nil => simp [listStrLt] at h1
    | cons b t =>
      by_cases hab : a.toNat < b.toNat
      · have hba : ¬ b.toNat < a.toNat := by omega
        simp [listStrLe, hab, hba] at h2
      · by_cases hba : b.toNat < a.toNat
        · simp [listStrLt, hab, hba] at h1
        · simp only [listStrLt, hab, hba, if_false, ite_false] at h1
          simp only [listStrLe, hab, hba, if_false, ite_false] at h2
          exact ih t h1 h2

instance : IsTrans (Nat × Lot) fifoLeIdx :=
  ⟨fun _ _ _ h1 h2 => listStrLe_trans _ _ _ h1 h2⟩

instance : IsTotal (Nat × Lot) fifoLeIdx :=
  ⟨fun a b => (listStrLe_total (fifoKey a.2).data (fifoKey b.2).data).imp id id⟩

theorem map_snd_filter_enumFrom {α : Type} (p : α → Bool) :
    ∀ (n : Nat) (l : List α),
      ((List.enumFrom n l).filter (fun x => p x.2)).map Prod.snd = l.filter p := by
  intro n l
  induction l generalizing n with
  | nil => rfl
  | cons a t ih =>
    simp only [List.enumFrom, List.filter_cons]
    by_cases h : p a
    · simp [h, ih]
    · simp [h, ih]

theorem sum_map_saldo_set : ∀ (rows : List Lot) (i : Nat) (b r' : Lot),
    rows[i]? = some b →
    ((rows.set i r').map Lot.saldo).sum =
      (rows.map Lot.saldo).sum - b.saldo + r'.saldo := by
  intro rows
  induction rows with
  | nil => intro i b r' h; simp at h
  | cons a t ih =>
    intro i b r' h
    cases i with
    | zero =>
      simp only [List.getElem?_cons_zero, Option.some.injEq] at h
      subst h
      simp only [List.set_cons_zero, List.map_cons, List.sum_cons]
      ring
    | succ j =>
      simp only [List.getElem?_cons_succ] at h
      simp only [List.set_cons_succ, List.map_cons, List.sum_cons, ih j b r' h]
      ring

theorem rowsOf_append_nil (est : Est) (mid mid' : Nat) :
    rowsOf (est ++ [(mid, [])]) mid' = rowsOf est mid' := by
  induction est with
  | nil => by_cases h : mid = mid' <;> simp [rowsOf, h]
  | cons kv t ih =>
    rcases kv with ⟨k, v⟩
    by_cases hk : k = mid'
    · simp [rowsOf, hk]
    · simp [rowsOf, hk, ih]

theorem rowsOf_estSetdefault (est : Est) (mid mid' : Nat) :
    rowsOf (estSetdefault est mid) mid' = rowsOf est mid' := by
  unfold estSetdefault
  by_cases h : estHasKey est mid
  · simp [h]
  · simp [h, rowsOf_append_nil]

theorem estHasKey_append_nil (est : Est) (mid mid' : Nat) :
    estHasKey (est ++ [(mid, [])]) mid' = (estHasKey est mid' || decide (mid = mid')) := by
  induction est with
  | nil => simp [estHasKey]
  | cons kv t ih =>
    rcases kv with ⟨k, v⟩
    by_cases hk : k = mid'
    · simp [estHasKey, hk]
    · simp [estHasKey, hk, ih]

theorem estHasKey_estSetdefault_self (est : Est) (mid : Nat) :
    estHasKey (estSetdefault est mid) mid = true := by
  unfold estSetdefault
  by_cases h : estHasKey est mid
  · simp [h]
  · simp [h, estHasKey_append_nil]

theorem rowsOf_estSet_self (est : Est) (mid : Nat) (rows : List Lot)
    (h : estHasKey est mid = true) :
    rowsOf (estSet est mid rows) mid = rows := by
  induction est with
  | nil => simp [estHasKey] at h
  | cons kv t ih =>
    rcases kv with ⟨k, v⟩
    by_cases hk : k = mid
    · simp [estSet, rowsOf, hk]
    · simp only [estHasKey, decide_eq_true_eq, Bool.or_eq_true] at h
      rcases h with h | h
      · exact absurd h hk
      · simp [estSet, rowsOf, hk, ih h]

theorem rowsOf_estSet_other (est : Est) (mid : Nat) (rows : List Lot)
    (mid' : Nat) (h : mid' ≠ mid) :
    rowsOf (estSet est mid rows) mid' = rowsOf est mid' := by
  induction est with
  | nil => simp [estSet]
  | cons kv t ih =>
    rcases kv with ⟨k, v⟩
    by_cases hk : k = mid
    · subst hk
      have hnk : ¬ k = mid' := fun hh => h hh.symm
      simp [estSet, rowsOf, hnk]
    · by_cases hk' : k = mid'
      · subst hk'
        simp [estSet, rowsOf, hk, h]
      · simp [estSet, rowsOf, hk, hk', ih]

theorem estHasKey_estSet (est : Est) (mid : Nat) (rows : List Lot) (mid' : Nat) :
    estHasKey (estSet est mid rows) mid' = estHasKey est mid' := by
  induction est with
  | nil => simp [estSet]
  | cons kv t ih =>
    rcases kv with ⟨k, v⟩
    by_cases hk : k = mid
    · simp [estSet, estHasKey, hk]
    · simp [estSet, estHasKey, hk, ih]

theorem _find_batch_get (rows : List Lot) (l v : Option String) (i : Nat) (b : Lot)
    (h : _find_batch rows l v = some (i, b)) : rows[i]? = some b := by
  unfold _find_batch at h
  have hmem : (i, b) ∈ (rows.enum.filter
      (fun p => normO p.2.lote = normO l ∧ normO p.2.validade = normO v)) :=
    List.mem_of_mem_head? (Option.mem_def.mpr h)
  have hmem2 : (i, b) ∈ rows.enum := List.mem_of_mem_filter hmem
  exact List.mk_mem_enum_iff_getElem?.mp hmem2

theorem set_concat_length (l : List α) (a x : α) :
    (l ++ [a]).set l.length x = l ++ [x] := by
  rw [List.set_append_right _ _ (Nat.le_refl _)]
  simp

theorem sum_ensureCredit (est : Est) (mid : Nat) (l v : Option String) (q : ℚ)
    (mid' : Nat) :
    _sum_batches (ensureCredit est mid l v q) mid' =
      _sum_batches est mid' + (if mid' = mid then q else 0) := by
  have hKey : estHasKey (estSetdefault est mid) mid = true :=
    estHasKey_estSetdefault_self est mid
  unfold ensureCredit _ensure_batch
  cases hfb : _find_batch (rowsOf (estSetdefault est mid) mid) l v with
  | some p =>
    rcases p with ⟨i, b⟩
    have hget : (rowsOf (estSetdefault est mid) mid)[i]? = some b :=
      _find_batch_get _ l v i b hfb
    simp only [hfb]
    have hget' : (rowsOf (estSetdefault est mid) mid).get? i = some b := by
      simpa [List.get?_eq_getElem?] using hget
    simp only [hget']
    by_cases he : mid' = mid
    · subst he
      unfold _sum_batches
      rw [rowsOf_estSet_self _ _ _ hKey,
        sum_map_saldo_set _ i b _ hget]
      rw [rowsOf_estSetdefault]
      simp
      ring
    · unfold _sum_batches
      rw [rowsOf_estSet_other _ _ _ _ he, rowsOf_estSetdefault]
      simp [he]
  | none =>
    simp only [hfb]
    have hrows : rowsOf (estSet (estSetdefault est mid) mid
        (rowsOf (estSetdefault est mid) mid ++
          [{ id := _all_batch_max_id (estSetdefault est mid) + 1,
             lote := normO l, validade := normO v, saldo := 0 }])) mid =
        rowsOf (estSetdefault est mid) mid ++
          [{ id := _all_batch_max_id (estSetdefault est mid) + 1,
             lote := normO l, validade := normO v, saldo := 0 }] :=
      rowsOf_estSet_self _ _ _ hKey
    simp only [hrows]
    rw [List.get?_eq_getElem?, List.getElem?_concat_length]
    simp only [Option.some.injEq]
    by_cases he : mid' = mid
    · subst he
      unfold _sum_batches
      rw [rowsOf_estSet_self _ _ _ (by rw [estHasKey_estSet]; exact hKey),
        set_concat_length]
      rw [List.map_append, List.sum_append, rowsOf_estSetdefault]
      simp
    · unfold _sum_batches
      rw [rowsOf_estSet_other _ _ _ _ he, rowsOf_estSet_other _ _ _ _ he,
        rowsOf_estSetdefault]
      simp [he]

theorem add_stock_movement_entrada (movs : List Mov) (est : Est) (rec : MovInput)
    (ht : pyStrip (pyLower rec.tipo) = "entrada")
    (hq : 0 < rec.quantidade.getD 0) :
    add_stock_movement movs est rec =
      ((movs ++ [mkMov movs rec],
        ensureCredit est rec.material_id (normStrField rec.lote)
          (normStrField rec.validade) (rec.quantidade.getD 0)), none) := by
  unfold add_stock_movement applyMovEst mkMov
  simp only [ht]
  simp [not_le.mpr hq]

theorem usedQty_cons (it : Item) (rest : List Item) (mid : Nat) :
    usedQty (it :: rest) mid =
      (if it.material_id = some mid then it.quantidade.getD 0 else 0) +
        usedQty rest mid := by
  simp only [usedQty, List.filter_cons]
  split
  · simp_all
  · simp_all

theorem revertItems_spec (code : String) : ∀ (items : List Item) (movs : List Mov)
    (est : Est),
    (∀ it ∈ items, it.material_id.isSome = true ∧ 0 < it.quantidade.getD 0) →
    (revertItems code items movs est).2 = none ∧
    ∀ mid', _sum_batches (revertItems code items movs est).1.2 mid' =
      _sum_batches est mid' + usedQty items mid' := by
  intro items
  induction items with
  | nil => intro movs est _; simp [revertItems, usedQty]
  | cons it rest ih =>
    intro movs est h
    obtain ⟨hsome, hqty⟩ := h it (List.mem_cons_self _ _)
    obtain ⟨mid, hmid⟩ := Option.isSome_iff_exists.mp hsome
    have hrest := fun x hx => h x (List.mem_cons_of_mem _ hx)
    rw [revertItems]
    simp only [hmid]
    have hent : pyStrip (pyLower "entrada") = "entrada" := by decide
    rw [add_stock_movement_entrada _ _ _ hent hqty]
    obtain ⟨ih1, ih2⟩ := ih _ _ hrest
    refine ⟨ih1, fun mid' => ?_⟩
    rw [ih2, sum_ensureCredit, usedQty_cons, hmid]
    by_cases he : mid' = mid
    · subst he; simp; ring
    · have hne : ¬ (some mid = some mid') :=
        fun hh => he (Option.some.inj hh).symm
      simp [he, hne]

theorem replaceFirstExam_find (exid : Nat) (x : Exam) (hx : x.id = some exid) :
    ∀ (exams : List Exam) (ex : Exam),
    exams.find? (fun e => e.id = some exid) = some ex →
    ∃ exams', replaceFirstExam exams x = some exams' ∧
      exams'.find? (fun e => e.id = some exid) = some x := by
  intro exams
  induction exams with
  | nil => intro ex h; simp at h
  | cons e t ih =>
    intro ex h
    by_cases he : e.id = some exid
    · refine ⟨x :: t, ?_, ?_⟩
      · have : e.id = x.id := by rw [he, hx]
        simp [replaceFirstExam, this]
      · rw [List.find?_cons_of_pos _ (by simp [hx])]
    · rw [List.find?_cons_of_neg _ (by simp [he])] at h
      obtain ⟨exams', h1, h2⟩ := ih ex h
      refine ⟨e :: exams', ?_, ?_⟩
      · have : ¬ e.id = x.id := fun hh => he (hx ▸ hh)
        simp [replaceFirstExam, this, h1]
      · rw [List.find?_cons_of_neg _ (by simp [he])]
        exact h2

theorem add_or_update_exam_update (mats : List Material) (exams : List Exam)
    (est : Est) (x : Exam) (exams' : List Exam) (ht : examTruthyId x = true)
    (hr : replaceFirstExam exams x = some exams') :
    add_or_update_exam mats exams est x = ((exams', est), .ok (x.id.getD 0)) := by
  unfold add_or_update_exam
  simp [ht, hr]

theorem consumeItem_invalid (it : Item) (est : Est)
    (h : isValidItem it = false) : consumeItem est it = .ok est := by
  unfold consumeItem
  cases hmid : it.material_id with
  | none => rfl
  | some mid =>
    have hq : it.quantidade.getD 0 ≤ 0 := by
      unfold isValidItem at h
      rw [hmid] at h
      simpa using h
    simp [hq]

theorem foldlM_consumeItem_filter : ∀ (items : List Item) (est : Est),
    items.foldlM consumeItem est =
      (items.filter isValidItem).foldlM consumeItem est := by
  intro items
  induction items with
  | nil => intro est; rfl
  | cons it rest ih =>
    intro est
    by_cases hv : isValidItem it
    · rw [List.filter_cons_of_pos hv, List.foldlM_cons, List.foldlM_cons]
      cases h : consumeItem est it with
      | error e => rfl
      | ok est' =>
        show List.foldlM consumeItem est' rest =
          List.foldlM consumeItem est' (List.filter isValidItem rest)
        exact ih est' 
    · rw [List.filter_cons_of_neg (by simpa using hv), List.foldlM_cons,
        consumeItem_invalid it est (by simpa using hv)]
      show List.foldlM consumeItem est rest =
        List.foldlM consumeItem est (List.filter isValidItem rest)
      exact ih est

/-- C1: `consume_stock_by_batches` is atomic across all items of one call:
when any item raises (unknown lot id, or insufficient balance on a lot or
across FIFO), the persisted ledger file is exactly the one read; when no
item raises, the fully debited ledger is persisted. -/
theorem consume_atomicity (file : Est) (items : List Item) :
    (∀ e, consume_stock_by_batches file items = .error e →
      persistedAfterConsume file items = file) ∧
    (∀ est', consume_stock_by_batches file items = .ok est' →
      persistedAfterConsume file items = est') := by
  constructor
  · intro e he; simp [persistedAfterConsume, he]
  · intro est' he; simp [persistedAfterConsume, he]

/-- Witness for C1: the spec's atomicity test — consuming `1e9` of a
material with total stock 15 fails and persists the ledger unchanged. -/
theorem consume_atomicity_witness :
    persistedAfterConsume
      [(1, [⟨11, some "A", some "2025-01-01", 10⟩, ⟨12, some "B", some "2025-06-01", 5⟩])]
      [{ material_id := some 1, quantidade := some 1000000000, lote_id := none }] =
    [(1, [⟨11, some "A", some "2025-01-01", 10⟩, ⟨12, some "B", some "2025-06-01", 5⟩])] :=
  (consume_atomicity _ _).1 .insufficientFifoConsume (by decide)

/-- C10: `consume_stock_by_batches` silently skips every item without a
`material_id` and every item whose quantity (defaulted to 0) is not
positive: the call behaves exactly as if those items were absent — no
error and no ledger mutation for them. -/
theorem consume_skips_invalid_items (est : Est) (items : List Item) :
    consume_stock_by_batches est items =
      consume_stock_by_batches est (items.filter isValidItem) := by
  unfold consume_stock_by_batches
  by_cases h0 : items.isEmpty
  · have : items = [] := by simpa [List.isEmpty_iff] using h0
    subst this
    rfl
  · rw [if_neg h0]
    by_cases hf : (items.filter isValidItem).isEmpty
    · have hnil : items.filter isValidItem = [] := by
        simpa [List.isEmpty_iff] using hf
      rw [if_pos hf, foldlM_consumeItem_filter, hnil]
      rfl
    · rw [if_neg hf, foldlM_consumeItem_filter]

/-- C9 (amended): debits — `_dec` and the exit branches — fail iff
`balance + 1e-9 < qty` and otherwise store `round(balance - qty, 6)`;
credits (entries and positive adjustments) store `balance + qty` exactly,
with no rounding (the total of the material grows by exactly `qty`). -/
theorem debit_guard_credit_unrounded :
    (∀ (row : Lot) (q : ℚ),
      (dec row q = .error .insufficientLotConsume ↔ row.saldo + eps < q) ∧
      (¬ row.saldo + eps < q →
        dec row q = .ok { row with saldo := round6 (row.saldo - q) })) ∧
    (∀ (est : Est) (mid : Nat) (l v : Option String) (q : ℚ),
      _sum_batches (ensureCredit est mid l v q) mid =
        _sum_batches est mid + q) := by
  constructor
  · intro row q
    unfold dec
    by_cases hc : row.saldo + eps < q
    · simp [hc]
    · simp [hc]
  · intro est mid l v q
    rw [sum_ensureCredit]
    simp

/-- Witness for C9: a feasible debit of 2 from balance 5 stores
`round6 (5 - 2)` and a credit of 4 raises the total by exactly 4. -/
theorem debit_guard_credit_unrounded_witness :
    dec ⟨1, none, none, 5⟩ 2 = .ok ⟨1, none, none, round6 (5 - 2)⟩ ∧
    _sum_batches (ensureCredit [] 1 none none 4) 1 = _sum_batches [] 1 + 4 :=
  ⟨(debit_guard_credit_unrounded.1 ⟨1, none, none, 5⟩ 2).2 (by norm_num [eps]),
   debit_guard_credit_unrounded.2 [] 1 none none 4⟩

/-- Counterexample for C9 as frozen: an entry of `3e-7` onto an empty lot
stores the unrounded balance `3e-7`, which is not a 6-decimal value —
credits are not rounded to 6 decimal places after mutation. -/
theorem rounding_credit_cex :
    (add_stock_movement [] [(1, [⟨1, some "L1", none, 0⟩])]
      { material_id := 1, tipo := "entrada", quantidade := some (3/10000000),
        lote := some "L1" }).1.2 =
      [(1, [⟨1, some "L1", none, 3/10000000⟩])] ∧
    round6 (3/10000000) ≠ 3/10000000 := by decide

/-- C8 (amended): `add_or_update_exam` with a truthy id that matches a
stored exam replaces that exam with the record as-is and leaves the batch
ledger untouched; an id that matches no stored exam instead falls through
to the insert path (which consumes stock). -/
theorem update_exam_frame (mats : List Material) (exams : List Exam)
    (est : Est) (exam : Exam) (exams' : List Exam)
    (ht : examTruthyId exam = true)
    (hr : replaceFirstExam exams exam = some exams') :
    add_or_update_exam mats exams est exam = ((exams', est), .ok (exam.id.getD 0)) :=
  add_or_update_exam_update mats exams est exam exams' ht hr

/-- Witness for C8: updating the stored exam 2 persists the new record
and leaves the ledger unchanged. -/
theorem update_exam_frame_witness :
    add_or_update_exam [] [{ id := some 2, exam_id := "E-2" }]
      [(1, [⟨1, some "L1", some "2026-01-01", 5⟩])]
      { id := some 2, exam_id := "E-2b" } =
    (([{ id := some 2, exam_id := "E-2b" }],
      [(1, [⟨1, some "L1", some "2026-01-01", 5⟩])]), .ok 2) :=
  update_exam_frame _ _ _ _ _ (by decide) (by decide)

/-- Counterexample for C8 as frozen: an exam record carrying `id = 7`
that matches no stored exam does not leave the ledger unchanged — the
call falls through to the insert path and debits the ledger. -/
theorem update_exam_cex :
    (add_or_update_exam [⟨1, "Gadolinio", "Contraste", "mL", some 1, none, none⟩]
      [] [(1, [⟨1, some "L1", some "2026-01-01", 5⟩])]
      { id := some 7,
        materiais_usados := [{ material_id := some 1, quantidade := some 2,
                               lote_id := none }] }).1.2 =
      [(1, [⟨1, some "L1", some "2026-01-01", 3⟩])] ∧
    [(1, [(⟨1, some "L1", some "2026-01-01", 3⟩ : Lot)])] ≠
      [(1, [⟨1, some "L1", some "2026-01-01", 5⟩])] := by decide

theorem saidaApply_errors (est : Est) (mid : Nat) (qtd : ℚ)
    (lote validade : Option String) (eNF eIL eIF : StockError) (e : StockError)
    (h : saidaApply est mid qtd lote validade eNF eIL eIF = .error e) :
    e = eNF ∨ e = eIL ∨ e = eIF := by
  unfold saidaApply at h
  split at h
  · split at h
    · left; simpa using h.symm
    · split at h
      · right; left; simpa using h.symm
      · simp at h
  · split at h
    · right; right; simpa using h.symm
    · simp at h

theorem applyMovEst_not_validation (est : Est) (mov : Mov) (e : StockError)
    (h : applyMovEst est mov = .error e) :
    e ≠ .invalidTipo ∧ e ≠ .invalidQty := by
  unfold applyMovEst at h
  split at h
  · simp at h
  · split at h
    · rcases saidaApply_errors _ _ _ _ _ _ _ _ _ h with h' | h' | h' <;>
        subst h' <;> exact ⟨by simp, by simp⟩
    · split at h
      · simp at h
      · rcases saidaApply_errors _ _ _ _ _ _ _ _ _ h with h' | h' | h' <;>
          subst h' <;> exact ⟨by simp, by simp⟩

/-- C3 (amended): when `add_stock_movement` raises — `LotNotFound` or
`InsufficientBalance` in the ledger-application step — no lot balance is
mutated in the persisted ledger, but the movement record HAS already been
appended to the persisted movement log; only the validation errors (bad
kind, quantity ≤ 0), raised before the append, leave both files
untouched. -/
theorem movement_error_frame (rows : List Mov) (est : Est) (rec : MovInput)
    (e : StockError) (h : (add_stock_movement rows est rec).2 = some e) :
    (add_stock_movement rows est rec).1.2 = est ∧
    ((e = .invalidTipo ∨ e = .invalidQty) →
      (add_stock_movement rows est rec).1.1 = rows) ∧
    (e ≠ .invalidTipo → e ≠ .invalidQty →
      (add_stock_movement rows est rec).1.1 = rows ++ [mkMov rows rec]) := by
  unfold add_stock_movement at h ⊢
  by_cases h1 : ((mkMov rows rec).tipo = "entrada" ∨ (mkMov rows rec).tipo = "saida" ∨
      (mkMov rows rec).tipo = "ajuste")
  · rw [if_neg (not_not_intro h1)] at h ⊢
    by_cases h2 : (mkMov rows rec).quantidade ≤ 0
    · rw [if_pos h2] at h ⊢
      have he : e = .invalidQty := by simpa using h.symm
      subst he
      exact ⟨rfl, fun _ => rfl, fun _ hq => absurd rfl hq⟩
    · rw [if_neg h2] at h ⊢
      cases ha : applyMovEst est (mkMov rows rec) with
      | ok est' =>
        rw [ha] at h
        simp at h
      | error e' =>
        rw [ha] at h
        have he : e' = e := by simpa using h
        subst he
        obtain ⟨hv1, hv2⟩ := applyMovEst_not_validation est (mkMov rows rec) e' ha
        exact ⟨rfl, fun hor => absurd hor (by simp [hv1, hv2]), fun _ _ => rfl⟩
  · rw [if_pos h1] at h ⊢
    have he : e = .invalidTipo := by simpa using h.symm
    subst he
    exact ⟨rfl, fun _ => rfl, fun ht _ => absurd rfl ht⟩

/-- Witness for C3: a `saida` naming an unknown lot code raises, keeps
the ledger intact, and leaves the appended movement record behind. -/
theorem movement_error_frame_witness :
    (add_stock_movement [] [(1, [⟨1, some "L1", some "2026-01-01", 5⟩])]
      { material_id := 1, tipo := "saida", quantidade := some 3,
        lote := some "X" }).1.2 =
      [(1, [⟨1, some "L1", some "2026-01-01", 5⟩])] ∧
    (add_stock_movement [] [(1, [⟨1, some "L1", some "2026-01-01", 5⟩])]
      { material_id := 1, tipo := "saida", quantidade := some 3,
        lote := some "X" }).1.1 =
      [] ++ [mkMov []
        { material_id := 1, tipo := "saida", quantidade := some 3,
          lote := some "X" }] :=
  ⟨(movement_error_frame _ _ _ .lotNotFoundExit (by decide)).1,
   (movement_error_frame _ _ _ .lotNotFoundExit (by decide)).2.2
     (by decide) (by decide)⟩

/-- Counterexample for C3 as frozen: the failing exit above does append a
movement record to the movement log before raising — the log does not
stay empty. -/
theorem movement_error_cex :
    ((add_stock_movement [] [(1, [⟨1, some "L1", some "2026-01-01", 5⟩])]
      { material_id := 1, tipo := "saida", quantidade := some 3,
        lote := some "X" }).2).isSome = true ∧
    (add_stock_movement [] [(1, [⟨1, some "L1", some "2026-01-01", 5⟩])]
      { material_id := 1, tipo := "saida", quantidade := some 3,
        lote := some "X" }).1.1 ≠ [] := by decide

/-- C6 (amended): an adjustment is applied as a credit iff (a unit cost
is supplied or the note contains `+` without `-`) and the note does NOT
contain `-` without `+` — a `-`-note overrides a supplied unit cost, and
the default with no unit cost and no sign in the note is a debit; every
credit-inferred adjustment is applied entry-like: it never fails and the
material's total balance grows by exactly the quantity. -/
theorem ajuste_direction_spec :
    (∀ (vu : Option ℚ) (obs : String),
      ajuste_positivo vu obs = true ↔
        ((vu.isSome = true ∨
            (pyContains obs '+' = true ∧ pyContains obs '-' = false)) ∧
         ¬ (pyContains obs '-' = true ∧ pyContains obs '+' = false))) ∧
    (∀ (movs : List Mov) (est : Est) (rec : MovInput),
      (mkMov movs rec).tipo = "ajuste" →
      0 < (mkMov movs rec).quantidade →
      ajuste_positivo rec.valor_unitario
        (pyStrip ((mkMov movs rec).obs.getD "")) = true →
      (add_stock_movement movs est rec).2 = none ∧
      _sum_batches (add_stock_movement movs est rec).1.2 rec.material_id =
        _sum_batches est rec.material_id + (mkMov movs rec).quantidade) := by
  constructor
  · intro vu obs
    unfold ajuste_positivo
    cases hvu : vu.isSome <;>
      cases hp : pyContains obs '+' <;>
      cases hm : pyContains obs '-' <;>
      simp [hvu, hp, hm]
  · intro movs est rec ht hq hpos
    unfold add_stock_movement applyMovEst
    rw [ht]
    have h1 : ("ajuste" = "entrada" ∨ "ajuste" = "saida" ∨ "ajuste" = "ajuste") := by
      right; right; rfl
    have hpos' : ajuste_positivo (mkMov movs rec).valor_unitario
        (pyStrip ((mkMov movs rec).obs.getD "")) = true := hpos
    rw [if_neg (not_not_intro h1), if_neg (not_le.mpr hq),
      if_neg (by decide : ¬ ("ajuste" : String) = "entrada"),
      if_neg (by decide : ¬ ("ajuste" : String) = "saida"),
      if_pos hpos']
    refine ⟨rfl, ?_⟩
    show _sum_batches (ensureCredit est (mkMov movs rec).material_id
      (mkMov movs rec).lote (mkMov movs rec).validade (mkMov movs rec).quantidade)
        rec.material_id = _
    rw [sum_ensureCredit]
    simp [mkMov]

/-- Witness for C6: an adjustment with a unit cost and a `+`-note is
applied as a credit of its quantity. -/
theorem ajuste_direction_witness :
    (add_stock_movement [] [(1, [⟨1, some "L1", some "2026-01-01", 5⟩])]
      { material_id := 1, tipo := "ajuste", quantidade := some 2,
        lote := some "L1", validade := some "2026-01-01",
        valor_unitario := some 1, obs := some "+" }).2 = none ∧
    _sum_batches (add_stock_movement [] [(1, [⟨1, some "L1", some "2026-01-01", 5⟩])]
      { material_id := 1, tipo := "ajuste", quantidade := some 2,
        lote := some "L1", validade := some "2026-01-01",
        valor_unitario := some 1, obs := some "+" }).1.2 1 =
      _sum_batches [(1, [⟨1, some "L1", some "2026-01-01", 5⟩])] 1 +
        (mkMov []
          { material_id := 1, tipo := "ajuste", quantidade := some 2,
            lote := some "L1", validade := some "2026-01-01",
            valor_unitario := some 1, obs := some "+" }).quantidade :=
  ajuste_direction_spec.2 _ _ _ (by decide) (by decide) (by decide)

/-- Counterexample for C6 as frozen: an adjustment carrying a unit cost
but whose note contains `-` (without `+`) is applied as a DEBIT — the lot
drops from 5 to 3 — and the default with no unit cost and no sign is also
a debit, not a credit. -/
theorem ajuste_direction_cex :
    (add_stock_movement [] [(1, [⟨1, some "L1", some "2026-01-01", 5⟩])]
      { material_id := 1, tipo := "ajuste", quantidade := some 2,
        lote := some "L1", validade := some "2026-01-01",
        valor_unitario := some 1, obs := some "-1" }).1.2 =
      [(1, [⟨1, some "L1", some "2026-01-01", 3⟩])] ∧
    ajuste_positivo (some 1) "-1" = false ∧
    ajuste_positivo none "" = false := by decide

theorem enumFifo_of_nonpos (rows : List Lot)
    (hz : ∀ r ∈ rows, r.saldo ≤ 0) : enumFifo rows = [] := by
  unfold enumFifo
  have hf : rows.enum.filter (fun p => 0 < p.2.saldo) = [] := by
    rw [List.filter_eq_nil_iff]
    intro p hp
    have := hz p.2 (List.snd_mem_of_mem_enum hp)
    simpa using not_lt.mpr this
  rw [hf]
  rfl

theorem list_material_batches_of_nonpos (est : Est) (mid : Nat)
    (hz : ∀ r ∈ rowsOf est mid, r.saldo ≤ 0) :
    list_material_batches est mid = [] := by
  unfold list_material_batches
  have hf : (rowsOf est mid).filter (fun b => 0 < b.saldo) = [] := by
    rw [List.filter_eq_nil_iff]
    intro r hr
    simpa using not_lt.mpr (hz r hr)
  rw [hf]
  rfl

theorem residual_saida_fails (movs : List Mov) (est : Est) (rec : MovInput)
    (ht : pyStrip (pyLower rec.tipo) = "saida")
    (hlote : normStrField rec.lote = none)
    (hval : normStrField rec.validade = none)
    (hq : eps < rec.quantidade.getD 0)
    (hz : ∀ r ∈ rowsOf est rec.material_id, r.saldo ≤ 0) :
    add_stock_movement movs est rec =
      ((movs ++ [mkMov movs rec], est), some .insufficientFifoExit) := by
  have ht' : (mkMov movs rec).tipo = "saida" := ht
  have hq0 : (0 : ℚ) < (mkMov movs rec).quantidade :=
    lt_trans (by norm_num [eps]) hq
  have hl : (mkMov movs rec).lote = none := hlote
  have hv : (mkMov movs rec).validade = none := hval
  have hm : (mkMov movs rec).material_id = rec.material_id := rfl
  have happ : applyMovEst est (mkMov movs rec) = .error .insufficientFifoExit := by
    unfold applyMovEst
    rw [ht', if_neg (by decide : ¬ ("saida" : String) = "entrada"), if_pos rfl]
    unfold saidaApply
    rw [if_neg (by simp [hl, hv])]
    rw [hm, enumFifo_of_nonpos _ hz]
    have hdr : drainRound (rowsOf est rec.material_id) []
        ((mkMov movs rec).quantidade) =
        (rowsOf est rec.material_id, (mkMov movs rec).quantidade) := rfl
    rw [hdr]
    rw [if_pos (show eps < (mkMov movs rec).quantidade from hq)]
  unfold add_stock_movement
  rw [ht', if_neg (not_not_intro (Or.inr (Or.inl rfl))),
    if_neg (not_le.mpr hq0), happ]

/-- C4 (amended): for an exam-edit delta on an unlotted key, when the
material has no positive-balance lot left to cover the (still) positive
residual, the fallback residual exit issued by the Reversal Engine does
NOT succeed unconstrained: it raises `InsufficientBalance` in the FIFO
branch of `add_stock_movement`, the reversal is blocked, and the persisted
ledger is unchanged by the residual step — no balance ever runs negative
on this path. -/
theorem reversal_residual_blocked (code : String) (movs : List Mov) (est : Est)
    (mid : Nat) (diff : ℚ) (hd : eps < diff)
    (hz : ∀ r ∈ rowsOf est mid, r.saldo ≤ 0) :
    (applyDeltaKey code movs est mid none diff).2 = some .insufficientFifoExit ∧
    (applyDeltaKey code movs est mid none diff).1.2 = est := by
  have hpos : 0 < diff := lt_trans (by norm_num [eps]) hd
  have habs : ¬ (|diff| ≤ 1/1000000000000) := by
    rw [abs_of_pos hpos, not_le]
    calc (1 : ℚ)/1000000000000 < 1/1000000000 := by norm_num
    _ < diff := by simpa [eps] using hd
  have hres := residual_saida_fails movs est
    { material_id := mid, tipo := "saida", quantidade := some diff,
      obs := some ("Ajuste materiais exame " ++ code ++ " (residual)") }
    rfl rfl rfl hd hz
  unfold applyDeltaKey
  rw [if_neg habs]
  show ((if 0 < diff then _ else _ : (List Mov × Est) × Option StockError)).2 =
      _ ∧ ((if 0 < diff then _ else _ : (List Mov × Est) × Option StockError)).1.2 = _
  rw [if_pos hpos, list_material_batches_of_nonpos est mid hz]
  show ((match fifoExitLoop code mid (List.insertionSort bvLeEmpty []) movs est diff with
    | ((s, _), some e) => (s, some e)
    | ((s, need), none) =>
      if eps < need then
        add_stock_movement s.1 s.2
          { material_id := mid, tipo := "saida", quantidade := some need,
            obs := some ("Ajuste materiais exame " ++ code ++ " (residual)") }
      else (s, none)).2 = _ ∧ _)
  have hloop : fifoExitLoop code mid (List.insertionSort bvLeEmpty []) movs est diff =
      (((movs, est), diff), none) := rfl
  rw [hloop]
  show ((if eps < diff then _ else _ : (List Mov × Est) × Option StockError)).2 =
      _ ∧ ((if eps < diff then _ else _ : (List Mov × Est) × Option StockError)).1.2 = _
  rw [if_pos hd, hres]
  exact ⟨rfl, rfl⟩

/-- Witness for C4: on a material whose only lot is empty, a residual
delta of 1 errors out and the ledger is untouched. -/
theorem reversal_residual_blocked_witness :
    (applyDeltaKey "E-9" [] [(1, [⟨1, some "L1", some "2025-01-01", 0⟩])]
      1 none 1).2 = some .insufficientFifoExit ∧
    (applyDeltaKey "E-9" [] [(1, [⟨1, some "L1", some "2025-01-01", 0⟩])]
      1 none 1).1.2 = [(1, [⟨1, some "L1", some "2025-01-01", 0⟩])] :=
  reversal_residual_blocked "E-9" [] _ 1 1 (by decide) (by decide)

/-- Counterexample for C4 as frozen: an unlotted delta of 15 against a
single lot of 10 drains the lot to 0 through the per-lot FIFO exits and
then raises on the residual exit — the reversal is blocked by
insufficient balance rather than always succeeding, and the persisted
balance stays at 0 instead of running negative. -/
theorem reversal_residual_cex :
    (applyDeltaKey "E-1" [] [(1, [⟨1, some "L1", some "2025-01-01", 10⟩])]
      1 none 15).2 = some .insufficientFifoExit ∧
    (applyDeltaKey "E-1" [] [(1, [⟨1, some "L1", some "2025-01-01", 10⟩])]
      1 none 15).1.2 = [(1, [⟨1, some "L1", some "2025-01-01", 0⟩])] := by
  decide

/-- C7: every row of `compute_stock_snapshot` carries the ledger-sourced
balance when the ledger holds at least one lot for the material (zero
balances included), the legacy formula
`opening + entries − exits + adjustments − consumption` otherwise, and
its below-minimum flag is `balance < minimum` exactly when the minimum is
positive and `false` otherwise. -/
theorem snapshot_balance_spec (mats : List Material) (exams : List Exam)
    (movs : List Mov) (est : Est) (row : SnapRow)
    (h : row ∈ compute_stock_snapshot mats exams movs est) :
    row.estoque_atual =
      (if hasLots est row.id then _sum_batches est row.id
       else row.estoque_inicial + row.entradas - row.saidas + row.ajustes -
         row.consumo_exames) ∧
    row.abaixo_minimo =
      (if 0 < row.estoque_minimo then
        decide (row.estoque_atual < row.estoque_minimo)
       else false) := by
  unfold compute_stock_snapshot at h
  have h2 : row ∈ mats.map (snapRow exams movs est) :=
    (List.perm_insertionSort snapLe _).mem_iff.mp h
  obtain ⟨m, _, rfl⟩ := List.mem_map.mp h2
  refine ⟨?_, ?_⟩ <;> simp only [snapRow]

/-- Witness for C7: a one-material snapshot with a ledger lot of 10 takes
the ledger balance and is not below its minimum of 5. -/
theorem snapshot_balance_spec_witness :
    ((⟨1, "Gadolinio", "Contraste", "mL", 1, 100, 5, 0, 0, 0, 0, 10, false⟩ :
        SnapRow).estoque_atual =
      (if hasLots [(1, [⟨1, some "L1", some "2026-01-01", 10⟩])] 1 then
        _sum_batches [(1, [⟨1, some "L1", some "2026-01-01", 10⟩])] 1
       else (100 : ℚ) + 0 - 0 + 0 - 0)) ∧
    ((⟨1, "Gadolinio", "Contraste", "mL", 1, 100, 5, 0, 0, 0, 0, 10, false⟩ :
        SnapRow).abaixo_minimo =
      (if (0 : ℚ) < 5 then decide ((10 : ℚ) < 5) else false)) :=
  snapshot_balance_spec
    [⟨1, "Gadolinio", "Contraste", "mL", some 1, some 100, some 5⟩] [] []
    [(1, [⟨1, some "L1", some "2026-01-01", 10⟩])]
    ⟨1, "Gadolinio", "Contraste", "mL", 1, 100, 5, 0, 0, 0, 0, 10, false⟩
    (by decide)

/-- C2: the FIFO iteration (`_fifo_batches`, and the identical `_fifo` of
`consume_stock_by_batches`) returns exactly the material's lots with
positive balance — a permutation of the positive filter — sorted
ascending by the expiry key (missing expiries mapped to the maximal
sentinel `"9999-99-99"`), with ties (and every already-ordered pair) kept
in original order; whenever every present expiry is lexicographically
below the sentinel, lots without an expiry come last; consequently an
unlotted consumption drains the soonest-to-expire lot first, as in the
spec's A/B example. -/
theorem fifo_batches_spec (est : Est) (mid : Nat)
    (hv : ∀ r ∈ rowsOf est mid, validadeBound r = true) :
    (List.Perm (_fifo_batches est mid)
      ((rowsOf est mid).filter (fun r => 0 < r.saldo))) ∧
    (_fifo_batches est mid).Pairwise fifoLe ∧
    (∀ p q : Nat × Lot, fifoLeIdx p q →
      List.Sublist [p, q] ((rowsOf est mid).enum.filter (fun x => 0 < x.2.saldo)) →
      List.Sublist [p, q] (enumFifo (rowsOf est mid))) ∧
    (_fifo_batches est mid).Pairwise
      (fun a b => (a.validade = none ∨ a.validade = some "") →
        (b.validade = none ∨ b.validade = some "")) ∧
    (consume_stock_by_batches
      [(1, [⟨11, some "A", some "2025-01-01", 10⟩,
            ⟨12, some "B", some "2025-06-01", 10⟩])]
      [{ material_id := some 1, quantidade := some 15, lote_id := none }] =
      .ok [(1, [⟨11, some "A", some "2025-01-01", 0⟩,
                ⟨12, some "B", some "2025-06-01", 5⟩])]) := by
  have hperm : List.Perm (_fifo_batches est mid)
      ((rowsOf est mid).filter (fun r => 0 < r.saldo)) := by
    unfold _fifo_batches enumFifo
    refine ((List.perm_insertionSort fifoLeIdx _).map Prod.snd).trans ?_
    have he : (List.map Prod.snd (List.filter (fun p => decide (0 < p.2.saldo))
        (rowsOf est mid).enum)) =
        List.filter (fun r => decide (0 < r.saldo)) (rowsOf est mid) :=
      map_snd_filter_enumFrom (fun r => decide (0 < r.saldo)) 0 (rowsOf est mid)
    rw [he]
  have hsorted : (_fifo_batches est mid).Pairwise fifoLe := by
    unfold _fifo_batches enumFifo
    exact List.pairwise_map.mpr
      (List.sorted_insertionSort fifoLeIdx
        ((rowsOf est mid).enum.filter (fun p => 0 < p.2.saldo)))
  refine ⟨hperm, hsorted, ?_, ?_, by decide⟩
  · intro p q hle hsub
    exact List.pair_sublist_insertionSort hle hsub
  · have hmem : ∀ a ∈ _fifo_batches est mid, a ∈ rowsOf est mid := by
      intro a ha
      exact List.mem_of_mem_filter (hperm.mem_iff.mp ha)
    refine hsorted.imp_of_mem ?_
    intro a b ha hb hle hmiss
    by_contra hbc
    push_neg at hbc
    obtain ⟨hb1, hb2⟩ := hbc
    obtain ⟨v, hbv⟩ := Option.ne_none_iff_exists'.mp hb1
    have hvne : v ≠ "" := by
      intro hveq
      exact hb2 (by rw [hbv, hveq])
    have hbound : validadeBound b = true := hv b (hmem b hb)
    have hlt : pyStrLt v "9999-99-99" = true := by
      unfold validadeBound at hbound
      rw [hbv] at hbound
      simpa [hvne] using hbound
    have hka : fifoKey a = "9999-99-99" := by
      unfold fifoKey strOr
      rcases hmiss with hm | hm <;> rw [hm]
      rfl
    have hkb : fifoKey b = v := by
      unfold fifoKey strOr
      rw [hbv]
      simp [hvne]
    have hle' : listStrLe ("9999-99-99" : String).data v.data = true := by
      have := hle
      unfold fifoLe pyStrLe at this
      rw [hka, hkb] at this
      exact this
    exact listStrLt_le_false v.data ("9999-99-99" : String).data hlt hle'

/-- Witness for C2 at a concrete two-lot ledger (B expires before A and
must come first). -/
theorem fifo_batches_spec_witness :
    (List.Perm (_fifo_batches [(1, [⟨11, some "A", some "2025-06-01", 10⟩,
        ⟨12, some "B", some "2025-01-01", 10⟩, ⟨13, none, none, 4⟩,
        ⟨14, some "C", some "2024-01-01", 0⟩])] 1)
      (([⟨11, some "A", some "2025-06-01", 10⟩,
        ⟨12, some "B", some "2025-01-01", 10⟩, ⟨13, none, none, 4⟩,
        ⟨14, some "C", some "2024-01-01", 0⟩] : List Lot).filter
          (fun r => 0 < r.saldo))) ∧
    (_fifo_batches [(1, [⟨11, some "A", some "2025-06-01", 10⟩,
        ⟨12, some "B", some "2025-01-01", 10⟩, ⟨13, none, none, 4⟩,
        ⟨14, some "C", some "2024-01-01", 0⟩])] 1).Pairwise fifoLe ∧
    (_fifo_batches [(1, [⟨11, some "A", some "2025-06-01", 10⟩,
        ⟨12, some "B", some "2025-01-01", 10⟩, ⟨13, none, none, 4⟩,
        ⟨14, some "C", some "2024-01-01", 0⟩])] 1).Pairwise
      (fun a b => (a.validade = none ∨ a.validade = some "") →
        (b.validade = none ∨ b.validade = some "")) := by
  have h := fifo_batches_spec
    [(1, [⟨11, some "A", some "2025-06-01", 10⟩,
      ⟨12, some "B", some "2025-01-01", 10⟩, ⟨13, none, none, 4⟩,
      ⟨14, some "C", some "2024-01-01", 0⟩])] 1 (by decide)
  exact ⟨h.1, h.2.1, h.2.2.2.1⟩

/-- C5: cancelling a stored, not-yet-cancelled exam succeeds, credits
back every used quantity (each material's total lot balance grows by
exactly the total quantity the exam had used), stores the exam with its
usage list cleared and `cancelado = true`, and a second cancellation
attempt on the same exam is rejected as `alreadyCancelled` leaving
nothing changed — no double credit. -/
theorem cancel_exam_spec (mats : List Material) (exams : List Exam)
    (movs : List Mov) (est : Est) (exid : Nat) (ex : Exam)
    (hfind : exams.find? (fun x => x.id = some exid) = some ex)
    (hnc : ex.cancelado = false)
    (hid : exid ≠ 0)
    (hitems : ∀ it ∈ ex.materiais_usados,
      it.material_id.isSome = true ∧ 0 < it.quantidade.getD 0) :
    (_confirm_cancel_exam mats exams movs est exid).2 = .ok ∧
    (∀ mid, _sum_batches (_confirm_cancel_exam mats exams movs est exid).1.2.2 mid =
      _sum_batches est mid + usedQty ex.materiais_usados mid) ∧
    ((_confirm_cancel_exam mats exams movs est exid).1.1.find?
        (fun x => x.id = some exid) =
      some { ex with materiais_usados := [], cancelado := true }) ∧
    (_confirm_cancel_exam mats
      (_confirm_cancel_exam mats exams movs est exid).1.1
      (_confirm_cancel_exam mats exams movs est exid).1.2.1
      (_confirm_cancel_exam mats exams movs est exid).1.2.2 exid =
      ((_confirm_cancel_exam mats exams movs est exid).1, .alreadyCancelled)) := by
  have hxid : ex.id = some exid := by
    have := List.find?_some hfind
    simpa using this
  obtain ⟨hrev_none, hrev_sum⟩ :=
    revertItems_spec ex.exam_id ex.materiais_usados movs est hitems
  rcases hrveq : revertItems ex.exam_id ex.materiais_usados movs est with
    ⟨⟨movs', est'⟩, err⟩
  have herr : err = none := by
    have := hrev_none
    rw [hrveq] at this
    exact this
  subst herr
  have hsum' : ∀ mid, _sum_batches est' mid =
      _sum_batches est mid + usedQty ex.materiais_usados mid := by
    intro mid
    have := hrev_sum mid
    rw [hrveq] at this
    exact this
  have hnewid : ({ ex with materiais_usados := [], cancelado := true } : Exam).id =
      some exid := hxid
  have htruthy : examTruthyId
      { ex with materiais_usados := [], cancelado := true } = true := by
    unfold examTruthyId
    rw [hnewid]
    simp [hid]
  obtain ⟨exams', hre, hfind'⟩ :=
    replaceFirstExam_find exid _ hnewid exams ex hfind
  have hupd := add_or_update_exam_update mats exams est'
    { ex with materiais_usados := [], cancelado := true } exams' htruthy hre
  have hmain : _confirm_cancel_exam mats exams movs est exid =
      ((exams', movs', est'), .ok) := by
    unfold _confirm_cancel_exam
    rw [hfind]
    simp only [hnc, Bool.false_eq_true, if_false]
    rw [hrveq]
    dsimp only
    rw [hupd]
  refine ⟨by rw [hmain], ?_, ?_, ?_⟩
  · intro mid
    rw [hmain]
    exact hsum' mid
  · rw [hmain]
    exact hfind'
  · rw [hmain]
    show _confirm_cancel_exam mats exams' movs' est' exid = _
    unfold _confirm_cancel_exam
    rw [hfind']
    simp

/-- Witness for C5: cancelling exam 3 with one unlotted usage item of 4
credits the material's total by 4, clears the usage, flips the flag, and
a second attempt is rejected without any further credit. -/
theorem cancel_exam_spec_witness :
    (_confirm_cancel_exam []
      [{ id := some 3, exam_id := "E-3",
         materiais_usados := [{ material_id := some 1, quantidade := some 4,
                                lote_id := none }] }]
      [] [(1, [⟨1, some "L1", some "2026-01-01", 5⟩])] 3).2 = .ok ∧
    _sum_batches (_confirm_cancel_exam []
      [{ id := some 3, exam_id := "E-3",
         materiais_usados := [{ material_id := some 1, quantidade := some 4,
                                lote_id := none }] }]
      [] [(1, [⟨1, some "L1", some "2026-01-01", 5⟩])] 3).1.2.2 1 =
      _sum_batches [(1, [⟨1, some "L1", some "2026-01-01", 5⟩])] 1 +
        usedQty [{ material_id := some 1, quantidade := some 4,
                   lote_id := none }] 1 := by
  have h := cancel_exam_spec []
    [{ id := some 3, exam_id := "E-3",
       materiais_usados := [{ material_id := some 1, quantidade := some 4,
                              lote_id := none }] }]
    [] [(1, [⟨1, some "L1", some "2026-01-01", 5⟩])] 3
    { id := some 3, exam_id := "E-3",
      materiais_usados := [{ material_id := some 1, quantidade := some 4,
                             lote_id := none }] }
    (by decide) (by decide) (by decide) (by decide)
  exact ⟨h.1, h.2.1 1⟩
